import Mathlib

/-!
Verification of the `autofw` resilient action engine against its
natural-language specification.

Shallow embedding conventions:
* Python `float` delay arithmetic is modelled over `ℚ` (all operations the
  code performs — multiplication by powers of two, `min`, division by the
  speed multiplier, addition — are exact on the values involved).
* Fallible Python calls are modelled with `Except String`/`Option`;
  a raised exception is an `Except.error` carrying `str(e)`.
* External collaborators (browser, IMAP mailbox, the random generator and
  the event-loop clock) are parameters of the embedded functions: each
  external call's outcome is a field of an environment record or an oracle
  function, so the embedded control flow is exactly the source's.
-/

namespace Autofw

/-! ### `autofw/retry.py` -/

/-- `RetryConfig` from `autofw/retry.py` (delays over `ℚ`). -/
structure RetryConfig where
  max_retries : Nat := 3
  base_delay : ℚ := 1
  max_delay : ℚ := 10
  exponential : Bool := true
deriving Repr, DecidableEq

/-- The backoff delay computed at line 32 of `autofw/retry.py`:
`min(base_delay * 2**attempt, max_delay) if exponential else base_delay`. -/
def backoffDelay (cfg : RetryConfig) (attempt : Nat) : ℚ :=
  if cfg.exponential then min (cfg.base_delay * 2 ^ attempt) cfg.max_delay
  else cfg.base_delay

/-- The attempt loop of `retry` (`autofw/retry.py`, lines 26-37).
`ops i` is the outcome of the `i`-th invocation of `operation` (`.error e`
models the invocation raising an exception whose message is `e`).
`i` is the current attempt index; `remaining` is `max_retries - i`, the
number of attempts still allowed after this one.  Returns the overall
outcome, the number of invocations of `operation` performed, and the list
of backoff delays slept (in order). -/
def retryGo (cfg : RetryConfig) (ops : Nat → Except String α) :
    Nat → Nat → Except String α × Nat × List ℚ
  | i, remaining =>
    match ops i with
    | .ok v => (.ok v, 1, [])
    | .error e =>
      match remaining with
      | 0 => (.error e, 1, [])
      | r + 1 =>
        let rest := retryGo cfg ops (i + 1) r
        (rest.1, rest.2.1 + 1, backoffDelay cfg i :: rest.2.2)

/-- `retry(operation, config, ...)` from `autofw/retry.py`: run the
attempt loop starting at attempt 0 with `max_retries` further attempts
allowed. -/
def retryRun (cfg : RetryConfig) (ops : Nat → Except String α) :
    Except String α × Nat × List ℚ :=
  retryGo cfg ops 0 cfg.max_retries

/-! ### `autofw/delays.py` -/

/-- The module constant `DELAYS` from `autofw/delays.py`:
mode name → (min, max) duration bounds. -/
def DELAYS : List (String × ℚ × ℚ) :=
  [("micro", 1/20, 3/20),
   ("short", 3/10, 4/5),
   ("action", 4/5, 2),
   ("thinking", 3/2, 7/2),
   ("page", 5/2, 9/2)]

/-- `DelayProfile` from `autofw/delays.py`; the `delays` dict is modelled as
an association list. -/
structure DelayProfile where
  delays : List (String × ℚ × ℚ) := DELAYS
  speed_multiplier : ℚ := 1
  extra_delay_probability : ℚ := 1/10
  extra_delay_range : ℚ × ℚ := (1/2, 3/2)

/-- `p.delays.get(mode, DELAYS["action"])` (line 31 of `autofw/delays.py`):
look the mode up in the profile's table, falling back to the module
constant `DELAYS["action"] = (0.8, 2.0)`. -/
def lookupDelay (ds : List (String × ℚ × ℚ)) (mode : String) : ℚ × ℚ :=
  match ds.find? (fun e => e.1 == mode) with
  | some e => e.2
  | none => (4/5, 2)

/-- Oracle for the random draws `random_delay` makes: `rand` is the
`random.random()` value at line 33, `uniformExtra` the `random.uniform`
draw over `extra_delay_range` at line 34, and `uniformMain` the final
`random.uniform(min_d, max_d)` draw at line 36. -/
structure RandDraw where
  rand : ℚ
  uniformExtra : ℚ → ℚ → ℚ
  uniformMain : ℚ → ℚ → ℚ

/-- The duration `random_delay(mode, profile)` (`autofw/delays.py`,
lines 28-36) passes to `asyncio.sleep`. -/
def random_delay_duration (mode : String) (p : DelayProfile) (o : RandDraw) : ℚ :=
  let mm := lookupDelay p.delays mode
  let maxD :=
    if mode ≠ "micro" ∧ o.rand < p.extra_delay_probability then
      mm.2 + o.uniformExtra p.extra_delay_range.1 p.extra_delay_range.2
    else mm.2
  o.uniformMain mm.1 maxD / p.speed_multiplier

/-! ### `autofw/email/gmail.py`

The IMAP transport is an external collaborator: the items a poll round
would extract are a parameter `fetchAt : Nat → List String` (round `n`'s
result of `_fetch_codes` / `_fetch_links`), and the per-round jitter drawn
by `random.uniform(-2, 2)` is a parameter `jitter : Nat → ℚ`. -/

/-- Outcome of the awaited IMAP fetch inside `_fetch_codes` /
`_fetch_links`: it returns items, or `asyncio.wait_for` times out, or the
fetch raises some other exception. -/
inductive FetchRaw where
  | ok (items : List String)
  | timedOut
  | err (e : String)
deriving Repr, DecidableEq

/-- The `try/except asyncio.TimeoutError` wrapper of `_fetch_codes`
(lines 149-156) and `_fetch_links` (lines 214-221): a timed-out fetch
yields `[]`; any other exception propagates. -/
def fetchRoundResult : FetchRaw → Except String (List String)
  | .ok items => .ok items
  | .timedOut => .ok []
  | .err e => .error e

/-- `set(await self._fetch_codes(...))` in `get_existing_codes`
(line 164) / `get_existing_links` (line 229): the fetched items as a set
(modelled as a deduplicated list; membership is what the callers use). -/
def get_existing (fetched : List String) : List String :=
  fetched.dedup

/-- `_jittered_sleep(base_interval)` (lines 24-29): the slept (and
returned) interval is `max(1, base_interval + jitter)`. -/
def jitteredSleep (base_interval : ℤ) (jitter : ℚ) : ℚ :=
  max 1 (base_interval + jitter)

/-- The `for code in ...: if code not in existing_codes: return code`
scan of one poll round (lines 181-183): first fetched item not in the
snapshot. -/
def firstNew (items : List String) (existing : List String) : Option String :=
  items.find? (fun c => decide (c ∉ existing))

/-- The polling loop shared by `wait_for_code`, `wait_for_code_optional`
and `wait_for_link`: `while elapsed < timeout: elapsed +=
jittered_sleep(poll_interval); scan the round's fetch`.  `fuel` bounds the
number of iterations (each iteration adds at least 1 to `elapsed`, so
`timeout.toNat + 1` iterations always suffice); `n` is the round index.
Returns the found item (or `none`) and the final `elapsed`. -/
def waitGo (timeout poll_interval : ℤ) (jitter : Nat → ℚ)
    (fetchAt : Nat → List String) (existing : List String) :
    Nat → Nat → ℚ → Option String × ℚ
  | 0, _, elapsed => (none, elapsed)
  | fuel + 1, n, elapsed =>
    if elapsed < (timeout : ℚ) then
      let e2 := elapsed + jitteredSleep poll_interval (jitter n)
      match firstNew (fetchAt n) existing with
      | some c => (some c, e2)
      | none => waitGo timeout poll_interval jitter fetchAt existing fuel (n + 1) e2
    else (none, elapsed)

/-- The polling loop entered with `elapsed = 0.0` at round 0. -/
def waitLoop (timeout poll_interval : ℤ) (jitter : Nat → ℚ)
    (fetchAt : Nat → List String) (existing : List String) : Option String × ℚ :=
  waitGo timeout poll_interval jitter fetchAt existing (timeout.toNat + 1) 0 0

/-- `wait_for_code` (lines 166-184): returns the new code, or raises
`TimeoutError` (modelled as `.error ()`) when the loop expires. -/
def wait_for_code (timeout poll_interval : ℤ) (jitter : Nat → ℚ)
    (fetchAt : Nat → List String) (existing : List String) :
    Except Unit String × ℚ :=
  match waitLoop timeout poll_interval jitter fetchAt existing with
  | (some c, e) => (.ok c, e)
  | (none, e) => (.error (), e)

/-- `wait_for_code_optional` (lines 186-204): same loop, returns `None`
when the loop expires. -/
def wait_for_code_optional (timeout poll_interval : ℤ) (jitter : Nat → ℚ)
    (fetchAt : Nat → List String) (existing : List String) :
    Option String × ℚ :=
  waitLoop timeout poll_interval jitter fetchAt existing

/-- `wait_for_link` (lines 231-249): textually the same loop as
`wait_for_code_optional`, over link items; returns `None` when the loop
expires. -/
def wait_for_link (timeout poll_interval : ℤ) (jitter : Nat → ℚ)
    (fetchAt : Nat → List String) (existing : List String) :
    Option String × ℚ :=
  waitLoop timeout poll_interval jitter fetchAt existing

/-! ### `autofw/examples/topps.py` -/

/-- `isPfx needle l`: `needle` is an initial segment of `l`. -/
def isPfx : List Char → List Char → Bool
  | [], _ => true
  | _ :: _, [] => false
  | c :: cs, d :: ds => c == d && isPfx cs ds

/-- `hasSub needle hay`: `needle` occurs as a contiguous segment of
`hay`. -/
def hasSub (needle : List Char) : List Char → Bool
  | [] => isPfx needle []
  | d :: ds => isPfx needle (d :: ds) || hasSub needle ds

/-- Python's `needle in hay` substring test on strings. -/
def pyIn (needle hay : String) : Bool :=
  hasSub needle.data hay.data

/-- `ToppsState` from `autofw/examples/topps.py` (lines 9-24). -/
inductive ToppsState where
  | INIT
  | HOMEPAGE
  | CF_CHECK_1
  | LOGIN_PAGE
  | CF_CHECK_2
  | EMAIL_ENTRY
  | CONTINUE_CLICKED
  | REGISTRATION_FORM
  | FORM_SUBMITTED
  | WAITING_EMAIL
  | VERIFICATION_LINK
  | COMPLETE
  | FAILED
deriving Repr, DecidableEq, Fintype

/-- `state.name` of the Python enum member. -/
def stateName : ToppsState → String
  | .INIT => "INIT"
  | .HOMEPAGE => "HOMEPAGE"
  | .CF_CHECK_1 => "CF_CHECK_1"
  | .LOGIN_PAGE => "LOGIN_PAGE"
  | .CF_CHECK_2 => "CF_CHECK_2"
  | .EMAIL_ENTRY => "EMAIL_ENTRY"
  | .CONTINUE_CLICKED => "CONTINUE_CLICKED"
  | .REGISTRATION_FORM => "REGISTRATION_FORM"
  | .FORM_SUBMITTED => "FORM_SUBMITTED"
  | .WAITING_EMAIL => "WAITING_EMAIL"
  | .VERIFICATION_LINK => "VERIFICATION_LINK"
  | .COMPLETE => "COMPLETE"
  | .FAILED => "FAILED"

/-- `STATE_VALIDATORS` (lines 28-34): URL predicate registered for a
state, `none` when the state has no entry. -/
def stateValidator : ToppsState → Option (String → Bool)
  | .HOMEPAGE => some (fun url => pyIn "topps.com" url)
  | .LOGIN_PAGE => some (fun url => pyIn "id.fanatics.com" url || pyIn "account/login" url)
  | .EMAIL_ENTRY => some (fun url => pyIn "id.fanatics.com" url)
  | .REGISTRATION_FORM => some (fun url => pyIn "id.fanatics.com" url)
  | .VERIFICATION_LINK => some (fun url => pyIn "verify-email" url)
  | _ => none

/-- `_validate_state` (lines 86-93): states without a registered
validator are treated as valid; otherwise apply the predicate to the
observed URL. -/
def validateState (st : ToppsState) (url : String) : Bool :=
  match stateValidator st with
  | none => true
  | some v => v url

/-- The attempt loop of `_transition_to` (lines 102-121).  `outcomes i`
is attempt `i`'s observed result: `some url` when `action()` returned and
the post-action URL is `url`, `none` when the action raised.  `remaining`
is the number of attempts still allowed after this one.  Returns the
success flag together with the machine's state afterwards (`current`
unchanged on failure, `target` on success). -/
def transitionGo (current target : ToppsState) (outcomes : Nat → Option String) :
    Nat → Nat → Bool × ToppsState
  | i, 0 =>
    match outcomes i with
    | some url =>
      if validateState target url then (true, target) else (false, current)
    | none => (false, current)
  | i, r + 1 =>
    match outcomes i with
    | some url =>
      if validateState target url then (true, target)
      else transitionGo current target outcomes (i + 1) r
    | none => transitionGo current target outcomes (i + 1) r

/-- `_transition_to(target_state, action, max_retries)` (lines 95-121),
started from state `current`. -/
def transition_to (current target : ToppsState) (outcomes : Nat → Option String)
    (max_retries : Nat) : Bool × ToppsState :=
  transitionGo current target outcomes 0 max_retries

/-- Outcomes of the external interactions `create_account` performs, in
program order.  A `some e` in a `...Raise` field means that step raised an
exception with message `e`; the `...Outcomes` fields feed the three
`_transition_to` calls; `cf1Ok`/`cf2Ok` are the results of
`_verify_cf_with_retry` (which catches its own exceptions and returns a
bool); `waitLinkResult` is what `wait_for_link` returned. -/
structure ToppsEnv where
  getLinksRaise : Option String
  homeOutcomes : Nat → Option String
  cf1Ok : Bool
  loginOutcomes : Nat → Option String
  cf2Ok : Bool
  emailRaise : Option String
  continueRaise : Option String
  regFormRaise : Option String
  submitRaise : Option String
  waitLinkRaise : Option String
  waitLinkResult : Option String
  verifyOutcomes : Nat → Option String

/-- The `try:` body of `create_account` (lines 134-241).  `.ok` carries
the machine state at the `return` together with the returned
`(success, message)` pair; `.error e` means an exception with message `e`
escaped the body. -/
def tryBody (env : ToppsEnv) : Except String (ToppsState × Bool × String) :=
  match env.getLinksRaise with
  | some e => .error e
  | none =>
    match transition_to .INIT .HOMEPAGE env.homeOutcomes 2 with
    | (false, st1) =>
      .ok (st1, false, "Failed to load homepage (state: " ++ stateName st1 ++ ")")
    | (true, st1) =>
      if !env.cf1Ok then
        .ok (st1, false, "Cloudflare verification failed on homepage")
      else
        match transition_to .CF_CHECK_1 .LOGIN_PAGE env.loginOutcomes 2 with
        | (false, st2) =>
          .ok (st2, false, "Failed to load login page (state: " ++ stateName st2 ++ ")")
        | (true, st2) =>
          if !env.cf2Ok then
            .ok (st2, false, "Cloudflare verification failed on login")
          else
            match env.emailRaise with
            | some e => .error e
            | none =>
              match env.continueRaise with
              | some e => .error e
              | none =>
                match env.regFormRaise with
                | some e => .error e
                | none =>
                  match env.submitRaise with
                  | some e => .error e
                  | none =>
                    match env.waitLinkRaise with
                    | some e => .error e
                    | none =>
                      match env.waitLinkResult with
                      | none =>
                        .ok (.WAITING_EMAIL, false, "Verification email not received")
                      | some _ =>
                        match transition_to .WAITING_EMAIL .VERIFICATION_LINK
                            env.verifyOutcomes 2 with
                        | (false, st3) =>
                          .ok (st3, false, "Failed to navigate to verification link")
                        | (true, _) =>
                          .ok (.COMPLETE, true, "Account created and verified")

/-- `create_account` (lines 123-246): run the body; an escaped exception
is caught by the `except` clause (lines 243-246), which sets the state to
`FAILED`, attempts a screenshot (`take_screenshot` swallows its own
errors, `autofw/browser.py` lines 157-162) and returns
`(False, f"{e} (state: FAILED)")`.  Result: final state and the returned
`(success, message)` pair. -/
def create_account (env : ToppsEnv) : ToppsState × Bool × String :=
  match tryBody env with
  | .ok r => r
  | .error e => (.FAILED, false, e ++ " (state: " ++ stateName .FAILED ++ ")")

/-! ### `TileManager` from `autofw/examples/run_topps_concurrent.py` -/

/-- `TileManager` (lines 75-114); `available` is `self._available`. -/
structure TileManager where
  max_tiles : Nat
  columns : Nat
  rows : Nat
  window_width : Nat
  window_height : Nat
  available : List Nat
deriving Repr, DecidableEq

/-- `TileManager.__init__` (lines 78-92). -/
def TileManager.init (max_tiles columns screen_width screen_height : Nat) : TileManager :=
  let cols := min columns max_tiles
  let rows := max 1 ((max_tiles + cols - 1) / cols)
  { max_tiles := max_tiles
    columns := cols
    rows := rows
    window_width := screen_width / cols
    window_height := screen_height / rows
    available := List.range max_tiles }

/-- `acquire` (lines 94-99): pop the lowest available slot, or fall back
to slot 0 (without mutating the pool) when the pool is exhausted. -/
def TileManager.acquire (t : TileManager) : Nat × TileManager :=
  match t.available with
  | [] => (0, t)
  | s :: rest => (s, { t with available := rest })

/-- `release` (lines 101-106): if the slot is absent from the pool and
in range, append it and re-sort ascending; otherwise leave the pool
unchanged. -/
def TileManager.release (t : TileManager) (slot : Nat) : TileManager :=
  if slot ∉ t.available ∧ slot < t.max_tiles then
    { t with available := List.insertionSort (· ≤ ·) (t.available ++ [slot]) }
  else t

/-- `get_position` (lines 108-114). -/
def TileManager.get_position (t : TileManager) (slot : Nat) : (Nat × Nat) × (Nat × Nat) :=
  let col := slot % t.columns
  let row := (slot / t.columns) % t.rows
  ((col * t.window_width, row * t.window_height), (t.window_width, t.window_height))

/-- One pool operation: an `acquire()` call or a `release(slot)` call. -/
inductive TileOp where
  | acq
  | rel (slot : Nat)
deriving Repr, DecidableEq

/-- Run a sequence of pool operations. -/
def runOps (t : TileManager) : List TileOp → TileManager
  | [] => t
  | .acq :: rest => runOps t.acquire.2 rest
  | .rel s :: rest => runOps (t.release s) rest

/-- `k` successive `acquire()` calls: the slots returned (in order) and
the manager afterwards. -/
def acquireSeq (t : TileManager) : Nat → List Nat × TileManager
  | 0 => ([], t)
  | k + 1 =>
    let p := t.acquire
    let q := acquireSeq p.2 k
    (p.1 :: q.1, q.2)

/-- `release` each slot of `l` in order. -/
def releaseAll (t : TileManager) (l : List Nat) : TileManager :=
  l.foldl (fun a s => a.release s) t

/-! ## Theorems -/

/-- When every invocation fails, the attempt loop performs every allowed
attempt, sleeps the backoff of each non-final attempt, and ends with the
final invocation's error. -/
theorem retryGo_all_fail (cfg : RetryConfig) (ops : Nat → Except String α)
    (errs : Nat → String) (h : ∀ i, ops i = .error (errs i)) :
    ∀ r i, retryGo cfg ops i r
      = (.error (errs (i + r)), r + 1, (List.range' i r).map (backoffDelay cfg)) := by
  intro r
  induction r with
  | zero => intro i; simp [retryGo, h i]
  | succ r ih =>
    intro i
    have harith : i + 1 + r = i + (r + 1) := by omega
    simp [retryGo, h i, ih (i + 1), harith, List.range'_succ]

/-- When the first `d` invocations fail and invocation `d` (counting from
the loop's start index) succeeds, the loop returns the success value after
`d + 1` invocations, sleeping the backoff of each failed attempt. -/
theorem retryGo_fail_then_ok (cfg : RetryConfig) (ops : Nat → Except String α)
    (errs : Nat → String) (v : α) :
    ∀ d i r, (∀ j, j < d → ops (i + j) = .error (errs (i + j))) →
      ops (i + d) = .ok v → d ≤ r →
      retryGo cfg ops i r = (.ok v, d + 1, (List.range' i d).map (backoffDelay cfg)) := by
  intro d
  induction d with
  | zero =>
    intro i r _ hok _
    simp only [Nat.add_zero] at hok
    simp [retryGo, hok]
  | succ d ih =>
    intro i r hfail hok hdr
    have h0 : ops i = .error (errs i) := by
      have := hfail 0 (by omega)
      simpa using this
    obtain ⟨r', rfl⟩ : ∃ r', r = r' + 1 := ⟨r - 1, by omega⟩
    have hfail' : ∀ j, j < d → ops (i + 1 + j) = .error (errs (i + 1 + j)) := by
      intro j hj
      have := hfail (j + 1) (by omega)
      have harith : i + (j + 1) = i + 1 + j := by omega
      rwa [harith] at this
    have hok' : ops (i + 1 + d) = .ok v := by
      have harith : i + 1 + d = i + (d + 1) := by omega
      rwa [harith]
    have hrec := ih (i + 1) r' hfail' hok' (by omega)
    simp [retryGo, h0, hrec, List.range'_succ]

/-- C3: for every config and every operation that raises on every
invocation, `retry` invokes the operation exactly `max_retries + 1` times
and then raises the exception captured from the final invocation (sleeping
the computed backoff after each non-final attempt). -/
theorem retry_always_fails_count (cfg : RetryConfig) (ops : Nat → Except String α)
    (errs : Nat → String) (h : ∀ i, ops i = .error (errs i)) :
    retryRun cfg ops
      = (.error (errs cfg.max_retries), cfg.max_retries + 1,
         (List.range cfg.max_retries).map (backoffDelay cfg)) := by
  have := retryGo_all_fail cfg ops errs h cfg.max_retries 0
  simpa [retryRun, List.range_eq_range'] using this

/-- Witness for C3 at a concrete always-failing operation. -/
theorem retry_always_fails_count_witness :
    retryRun (α := Nat) ⟨3, 1, 10, true⟩ (fun _ => .error "boom")
      = (.error "boom", 4, [1, 2, 4]) := by
  have h := retry_always_fails_count (α := Nat) ⟨3, 1, 10, true⟩
    (fun _ => .error "boom") (fun _ => "boom") (fun _ => rfl)
  rw [h]
  norm_num [backoffDelay, List.range_succ, min_def]

/-- C4: for every config and every operation failing exactly `k` times
then succeeding, with `k ≤ max_retries`, `retry` returns the success value
and sleeps exactly `k` times, the sleep after failed attempt `i` being
`min(base_delay * 2^i, max_delay)` when exponential and `base_delay`
otherwise. -/
theorem retry_eventual_success (cfg : RetryConfig) (ops : Nat → Except String α)
    (errs : Nat → String) (v : α) (k : Nat)
    (hfail : ∀ j, j < k → ops j = .error (errs j))
    (hok : ops k = .ok v) (hk : k ≤ cfg.max_retries) :
    retryRun cfg ops
      = (.ok v, k + 1,
         (List.range k).map (fun i =>
           if cfg.exponential then min (cfg.base_delay * 2 ^ i) cfg.max_delay
           else cfg.base_delay)) := by
  have hfail' : ∀ j, j < k → ops (0 + j) = .error (errs (0 + j)) := by
    intro j hj; simpa using hfail j hj
  have hok' : ops (0 + k) = .ok v := by simpa using hok
  have := retryGo_fail_then_ok cfg ops errs v k 0 cfg.max_retries hfail' hok' hk
  simpa [retryRun, List.range_eq_range', backoffDelay] using this

/-- Witness for C4: fails twice then succeeds under the default config. -/
theorem retry_eventual_success_witness :
    retryRun (α := Nat) ⟨3, 1, 10, true⟩
        (fun i => if i < 2 then .error "e" else .ok 42)
      = (.ok 42, 3, [1, 2]) := by
  have h := retry_eventual_success (α := Nat) ⟨3, 1, 10, true⟩
    (fun i => if i < 2 then .error "e" else .ok 42) (fun _ => "e") 42 2
    (by intro j hj; interval_cases j <;> rfl)
    rfl (by decide)
  rw [h]
  norm_num [List.range_succ, min_def]

/-- The looked-up bound of a profile whose entries all satisfy
`0 ≤ min ∧ min ≤ max` itself satisfies `0 ≤ min ∧ min ≤ max` (the fallback
`(0.8, 2.0)` does too). -/
theorem lookupDelay_bounds (ds : List (String × ℚ × ℚ)) (mode : String)
    (hall : ∀ e ∈ ds, 0 ≤ e.2.1 ∧ e.2.1 ≤ e.2.2) :
    0 ≤ (lookupDelay ds mode).1 ∧ (lookupDelay ds mode).1 ≤ (lookupDelay ds mode).2 := by
  unfold lookupDelay
  cases hfind : ds.find? (fun e => e.1 == mode) with
  | none => norm_num
  | some e => exact hall e (List.mem_of_find?_eq_some hfind)

/-- C7: for every mode, every profile with well-formed non-negative
bounds and positive speed multiplier, and every in-range random draw, the
duration `random_delay` passes to `sleep` lies within
`[min/speed, (max + extra_max)/speed]` and is never negative; for mode
"micro" it lies within `[min/speed, max/speed]` regardless of the draw. -/
theorem random_delay_bounds (mode : String) (p : DelayProfile) (o : RandDraw)
    (hu1 : ∀ a b, a ≤ b → a ≤ o.uniformExtra a b ∧ o.uniformExtra a b ≤ b)
    (hu2 : ∀ a b, a ≤ b → a ≤ o.uniformMain a b ∧ o.uniformMain a b ≤ b)
    (hall : ∀ e ∈ p.delays, 0 ≤ e.2.1 ∧ e.2.1 ≤ e.2.2)
    (hx1 : 0 ≤ p.extra_delay_range.1)
    (hx2 : p.extra_delay_range.1 ≤ p.extra_delay_range.2)
    (hs : 0 < p.speed_multiplier) :
    0 ≤ random_delay_duration mode p o ∧
    (lookupDelay p.delays mode).1 / p.speed_multiplier ≤ random_delay_duration mode p o ∧
    random_delay_duration mode p o
      ≤ ((lookupDelay p.delays mode).2 + p.extra_delay_range.2) / p.speed_multiplier ∧
    (mode = "micro" →
      random_delay_duration mode p o ≤ (lookupDelay p.delays mode).2 / p.speed_multiplier) := by
  obtain ⟨hm0, hm12⟩ := lookupDelay_bounds p.delays mode hall
  have hx0 : (0 : ℚ) ≤ p.extra_delay_range.2 := le_trans hx1 hx2
  unfold random_delay_duration
  by_cases hc : mode ≠ "micro" ∧ o.rand < p.extra_delay_probability
  · simp only [if_pos hc]
    obtain ⟨he1, he2⟩ := hu1 p.extra_delay_range.1 p.extra_delay_range.2 hx2
    have hmax : (lookupDelay p.delays mode).1
        ≤ (lookupDelay p.delays mode).2
          + o.uniformExtra p.extra_delay_range.1 p.extra_delay_range.2 := by
      have : (0 : ℚ) ≤ o.uniformExtra p.extra_delay_range.1 p.extra_delay_range.2 :=
        le_trans hx1 he1
      linarith
    obtain ⟨hl, hr⟩ := hu2 (lookupDelay p.delays mode).1 _ hmax
    refine ⟨?_, ?_, ?_, ?_⟩
    · exact div_nonneg (le_trans hm0 hl) (le_of_lt hs)
    · gcongr
    · have : o.uniformMain (lookupDelay p.delays mode).1
          ((lookupDelay p.delays mode).2
            + o.uniformExtra p.extra_delay_range.1 p.extra_delay_range.2)
          ≤ (lookupDelay p.delays mode).2 + p.extra_delay_range.2 := by linarith
      gcongr
    · intro hmode; exact absurd hmode hc.1
  · simp only [if_neg hc]
    obtain ⟨hl, hr⟩ := hu2 (lookupDelay p.delays mode).1 (lookupDelay p.delays mode).2 hm12
    refine ⟨?_, ?_, ?_, ?_⟩
    · exact div_nonneg (le_trans hm0 hl) (le_of_lt hs)
    · gcongr
    · have : o.uniformMain (lookupDelay p.delays mode).1 (lookupDelay p.delays mode).2
          ≤ (lookupDelay p.delays mode).2 + p.extra_delay_range.2 := by linarith
      gcongr
    · intro _; gcongr

/-- Witness for C7 at mode "micro" under the default profile, with the
draw oracle returning the low end of each range. -/
theorem random_delay_bounds_witness :
    0 ≤ random_delay_duration "micro" ⟨DELAYS, 1, 1/10, (1/2, 3/2)⟩ ⟨0, fun a _ => a, fun a _ => a⟩ ∧
    (lookupDelay (DelayProfile.mk DELAYS 1 (1/10) (1/2, 3/2)).delays "micro").1
        / (DelayProfile.mk DELAYS 1 (1/10) (1/2, 3/2)).speed_multiplier
      ≤ random_delay_duration "micro" ⟨DELAYS, 1, 1/10, (1/2, 3/2)⟩ ⟨0, fun a _ => a, fun a _ => a⟩ ∧
    random_delay_duration "micro" ⟨DELAYS, 1, 1/10, (1/2, 3/2)⟩ ⟨0, fun a _ => a, fun a _ => a⟩
      ≤ ((lookupDelay (DelayProfile.mk DELAYS 1 (1/10) (1/2, 3/2)).delays "micro").2
          + (DelayProfile.mk DELAYS 1 (1/10) (1/2, 3/2)).extra_delay_range.2)
        / (DelayProfile.mk DELAYS 1 (1/10) (1/2, 3/2)).speed_multiplier ∧
    ("micro" = "micro" →
      random_delay_duration "micro" ⟨DELAYS, 1, 1/10, (1/2, 3/2)⟩ ⟨0, fun a _ => a, fun a _ => a⟩
        ≤ (lookupDelay (DelayProfile.mk DELAYS 1 (1/10) (1/2, 3/2)).delays "micro").2
          / (DelayProfile.mk DELAYS 1 (1/10) (1/2, 3/2)).speed_multiplier) :=
  random_delay_bounds "micro" ⟨DELAYS, 1, 1/10, (1/2, 3/2)⟩ ⟨0, fun a _ => a, fun a _ => a⟩
    (fun a b h => ⟨le_refl a, h⟩) (fun a b h => ⟨le_refl a, h⟩)
    (by norm_num [DELAYS, List.forall_mem_cons]) (by norm_num) (by norm_num) (by norm_num)

/-- A `false` result of the transition loop leaves the machine in the
starting state. -/
theorem transitionGo_false_state (c t : ToppsState) (o : Nat → Option String) :
    ∀ r i st, transitionGo c t o i r = (false, st) → st = c := by
  intro r
  induction r with
  | zero =>
    intro i st h
    cases ho : o i with
    | none => simp [transitionGo, ho] at h; exact h.symm
    | some url =>
      by_cases hv : validateState t url
      · simp [transitionGo, ho, hv] at h
      · simp [transitionGo, ho, hv] at h; exact h.symm
  | succ r ih =>
    intro i st h
    cases ho : o i with
    | none => simp only [transitionGo, ho] at h; exact ih (i + 1) st h
    | some url =>
      by_cases hv : validateState t url
      · simp [transitionGo, ho, hv] at h
      · simp only [transitionGo, ho, hv, if_neg] at h
        exact ih (i + 1) st h

/-- A `true` result of the transition loop means the machine advanced to
the target and some attempt's observed URL passed the target's
validator. -/
theorem transitionGo_true_valid (c t : ToppsState) (o : Nat → Option String) :
    ∀ r i st, transitionGo c t o i r = (true, st) →
      st = t ∧ ∃ d, d ≤ r ∧ ∃ url, o (i + d) = some url ∧ validateState t url = true := by
  intro r
  induction r with
  | zero =>
    intro i st h
    cases ho : o i with
    | none => simp [transitionGo, ho] at h
    | some url =>
      by_cases hv : validateState t url
      · simp [transitionGo, ho, hv] at h
        exact ⟨h.symm, 0, le_refl 0, url, by simpa using ho, hv⟩
      · simp [transitionGo, ho, hv] at h
  | succ r ih =>
    intro i st h
    cases ho : o i with
    | none =>
      simp only [transitionGo, ho] at h
      obtain ⟨hst, d, hd, url, hurl, hval⟩ := ih (i + 1) st h
      refine ⟨hst, d + 1, by omega, url, ?_, hval⟩
      have harith : i + (d + 1) = i + 1 + d := by omega
      rwa [harith]
    | some url =>
      by_cases hv : validateState t url
      · simp [transitionGo, ho, hv] at h
        exact ⟨h.symm, 0, by omega, url, by simpa using ho, hv⟩
      · simp only [transitionGo, ho, hv, if_neg] at h
        obtain ⟨hst, d, hd, url2, hurl, hval⟩ := ih (i + 1) st h
        refine ⟨hst, d + 1, by omega, url2, ?_, hval⟩
        have harith : i + (d + 1) = i + 1 + d := by omega
        rwa [harith]

/-- When every attempt raises or fails validation, the loop returns
`false` with the starting state. -/
theorem transitionGo_all_invalid (c t : ToppsState) (o : Nat → Option String) :
    ∀ r i, (∀ d, d ≤ r → ∀ url, o (i + d) = some url → validateState t url = false) →
      transitionGo c t o i r = (false, c) := by
  intro r
  induction r with
  | zero =>
    intro i hall
    cases ho : o i with
    | none => simp [transitionGo, ho]
    | some url =>
      have := hall 0 (le_refl 0) url (by simpa using ho)
      simp [transitionGo, ho, this]
  | succ r ih =>
    intro i hall
    have hrec := ih (i + 1) (by
      intro d hd url hurl
      have harith : i + 1 + d = i + (d + 1) := by omega
      rw [harith] at hurl
      exact hall (d + 1) (by omega) url hurl)
    cases ho : o i with
    | none => simp only [transitionGo, ho]; exact hrec
    | some url =>
      have := hall 0 (by omega) url (by simpa using ho)
      simp only [transitionGo, ho, this]
      simpa using hrec

/-- C2: `_transition_to` sets the state to `target_state` only when some
execution of the action passed the target state's validator on the
observed URL; on a `false` result the state is unchanged, and when all
`max_retries + 1` attempts raise or fail validation the result is
`(false, current)`. -/
theorem transition_validator_guard (current target : ToppsState)
    (outcomes : Nat → Option String) (max_retries : Nat) :
    (∀ st, transition_to current target outcomes max_retries = (true, st) →
      st = target ∧ ∃ i, i ≤ max_retries ∧
        ∃ url, outcomes i = some url ∧ validateState target url = true) ∧
    (∀ st, transition_to current target outcomes max_retries = (false, st) → st = current) ∧
    ((∀ i, i ≤ max_retries → ∀ url, outcomes i = some url → validateState target url = false) →
      transition_to current target outcomes max_retries = (false, current)) := by
  refine ⟨?_, ?_, ?_⟩
  · intro st h
    obtain ⟨hst, d, hd, url, hurl, hval⟩ :=
      transitionGo_true_valid current target outcomes max_retries 0 st h
    exact ⟨hst, d, hd, url, by simpa using hurl, hval⟩
  · intro st h
    exact transitionGo_false_state current target outcomes max_retries 0 st h
  · intro hall
    exact transitionGo_all_invalid current target outcomes max_retries 0 (by
      intro d hd url hurl
      exact hall d hd url (by simpa using hurl))

/-- Witness for C2: a transition whose first attempt lands on a URL the
HOMEPAGE validator accepts. -/
theorem transition_validator_guard_witness :
    ToppsState.HOMEPAGE = ToppsState.HOMEPAGE ∧ ∃ i, i ≤ 2 ∧
      ∃ url, (fun _ => some "https://www.topps.com/") i = some url ∧
        validateState .HOMEPAGE url = true :=
  (transition_validator_guard .INIT .HOMEPAGE (fun _ => some "https://www.topps.com/") 2).1
    .HOMEPAGE (by decide)

/-- The pool invariant maintained by `TileManager`: the available list is
sorted ascending, duplicate-free, and contains only in-range slots. -/
def PoolInv (t : TileManager) : Prop :=
  t.available.Sorted (· ≤ ·) ∧ t.available.Nodup ∧ ∀ s ∈ t.available, s < t.max_tiles

/-- `k` acquires pop the first `k` slots of the available list. -/
theorem acquireSeq_take :
    ∀ (k : Nat) (t : TileManager), k ≤ t.available.length →
      acquireSeq t k = (t.available.take k, { t with available := t.available.drop k }) := by
  intro k
  induction k with
  | zero => intro t h; rfl
  | succ k ih =>
    intro t h
    obtain ⟨mt, c, r, ww, wh, av⟩ := t
    cases av with
    | nil => simp at h
    | cons a rest =>
      have hlen : k ≤ rest.length := by
        simp only [List.length_cons] at h; omega
      have hrec := ih ⟨mt, c, r, ww, wh, rest⟩ hlen
      simp [acquireSeq, TileManager.acquire, hrec]

/-- Releasing a list of fresh in-range slots produces a sorted pool that
is a permutation of the released slots plus the previous pool. -/
theorem releaseAll_spec :
    ∀ (l : List Nat) (t : TileManager), t.available.Sorted (· ≤ ·) →
      (∀ s ∈ l, s < t.max_tiles) → (l ++ t.available).Nodup →
      (releaseAll t l).available.Sorted (· ≤ ·) ∧
      (releaseAll t l).available.Perm (l ++ t.available) ∧
      (releaseAll t l).max_tiles = t.max_tiles := by
  intro l
  induction l with
  | nil => intro t hsort _ _; exact ⟨hsort, by simp [releaseAll], rfl⟩
  | cons s l ih =>
    intro t hsort hlt hnd
    have hnd0 : s ∉ l ++ t.available ∧ (l ++ t.available).Nodup := by
      simpa [List.nodup_cons] using hnd
    have hmem : s ∉ t.available := fun hs => hnd0.1 (List.mem_append_right l hs)
    have hslt : s < t.max_tiles := hlt s (List.mem_cons_self s l)
    have hrel : t.release s
        = { t with available := List.insertionSort (· ≤ ·) (t.available ++ [s]) } := by
      rw [TileManager.release, if_pos ⟨hmem, hslt⟩]
    have hperm1 : (t.release s).available.Perm (s :: t.available) := by
      rw [hrel]
      exact (List.perm_insertionSort (· ≤ ·) (t.available ++ [s])).trans
        (List.perm_append_singleton s t.available)
    have hstep : releaseAll t (s :: l) = releaseAll (t.release s) l := rfl
    have hsort2 : (t.release s).available.Sorted (· ≤ ·) := by
      rw [hrel]
      exact List.sorted_insertionSort (· ≤ ·) (t.available ++ [s])
    have hlt2 : ∀ x ∈ l, x < (t.release s).max_tiles := by
      intro x hx
      have : (t.release s).max_tiles = t.max_tiles := by rw [hrel]
      rw [this]
      exact hlt x (List.mem_cons_of_mem s hx)
    have hp : (s :: (l ++ t.available)).Perm (l ++ (t.release s).available) := by
      have h1 : (s :: (l ++ t.available)).Perm (l ++ s :: t.available) :=
        List.perm_middle.symm
      have h2 : (l ++ s :: t.available).Perm (l ++ (t.release s).available) :=
        (hperm1.symm).append_left l
      exact h1.trans h2
    have hnd2 : (l ++ (t.release s).available).Nodup := hp.nodup hnd
    obtain ⟨ha, hb, hc⟩ := ih (t.release s) hsort2 hlt2 hnd2
    refine ⟨by rwa [hstep], ?_, ?_⟩
    · rw [hstep]
      exact (hb.trans ((hperm1).append_left l)).trans List.perm_middle
    · rw [hstep, hc, hrel]

/-- C9: acquiring all `N` slots of a fresh pool of size `N`, then
releasing them in any order, leaves the pool equal to `[0, ..., N-1]`
sorted ascending, and the acquires (both rounds) return slots
lowest-index-first `0, 1, 2, ...`. -/
theorem tile_pool_restore (N cols sw sh : Nat) (perm : List Nat)
    (hperm : perm.Perm (List.range N)) :
    (acquireSeq (TileManager.init N cols sw sh) N).1 = List.range N ∧
    (releaseAll (acquireSeq (TileManager.init N cols sw sh) N).2 perm).available
      = List.range N ∧
    (acquireSeq
        (releaseAll (acquireSeq (TileManager.init N cols sw sh) N).2 perm) N).1
      = List.range N := by
  have htake : List.take N (List.range N) = List.range N := by
    have := List.take_length (List.range N)
    rwa [List.length_range] at this
  have hdrop : List.drop N (List.range N) = [] := by
    have := List.drop_length (List.range N)
    rwa [List.length_range] at this
  have hlen : N ≤ (TileManager.init N cols sw sh).available.length := by
    simp [TileManager.init]
  have hacq := acquireSeq_take N (TileManager.init N cols sw sh) hlen
  have hav : (TileManager.init N cols sw sh).available = List.range N := rfl
  rw [hav, htake, hdrop] at hacq
  have hmt : (acquireSeq (TileManager.init N cols sw sh) N).2.max_tiles = N := by
    rw [hacq]; rfl
  have hav2 : (acquireSeq (TileManager.init N cols sw sh) N).2.available = [] := by
    rw [hacq]
  obtain ⟨hsort, hpermr, hmtr⟩ :=
    releaseAll_spec perm (acquireSeq (TileManager.init N cols sw sh) N).2
      (by rw [hav2]; exact List.sorted_nil)
      (by
        intro s hs
        rw [hmt]
        exact List.mem_range.mp (hperm.mem_iff.mp hs))
      (by
        rw [hav2]
        simpa using hperm.nodup_iff.mpr (List.nodup_range N))
  have hres : (releaseAll (acquireSeq (TileManager.init N cols sw sh) N).2 perm).available
      = List.range N := by
    refine List.eq_of_perm_of_sorted ?_ hsort (List.sorted_le_range N)
    refine hpermr.trans ?_
    rw [hav2]
    simpa using hperm
  refine ⟨by rw [hacq], hres, ?_⟩
  have hlen2 : N ≤ (releaseAll (acquireSeq (TileManager.init N cols sw sh) N).2
      perm).available.length := by
    rw [hres, List.length_range]
  have := acquireSeq_take N _ hlen2
  rw [this, hres, htake]

/-- Witness for C9: pool of size 3, slots released in the order
`[2, 0, 1]`. -/
theorem tile_pool_restore_witness :
    (acquireSeq (TileManager.init 3 4 1920 1080) 3).1 = List.range 3 ∧
    (releaseAll (acquireSeq (TileManager.init 3 4 1920 1080) 3).2 [2, 0, 1]).available
      = List.range 3 ∧
    (acquireSeq
        (releaseAll (acquireSeq (TileManager.init 3 4 1920 1080) 3).2 [2, 0, 1]) 3).1
      = List.range 3 :=
  tile_pool_restore 3 4 1920 1080 [2, 0, 1] (by decide)

/-- `acquire` preserves the pool invariant. -/
theorem acquire_inv (t : TileManager) (h : PoolInv t) : PoolInv t.acquire.2 := by
  obtain ⟨hsort, hnd, hmem⟩ := h
  obtain ⟨mt, c, r, ww, wh, av⟩ := t
  cases av with
  | nil => exact ⟨hsort, hnd, hmem⟩
  | cons a rest =>
    refine ⟨?_, ?_, ?_⟩
    · exact (List.sorted_cons.mp hsort).2
    · exact (List.nodup_cons.mp hnd).2
    · intro s hs
      exact hmem s (List.mem_cons_of_mem a hs)

/-- `release` preserves the pool invariant. -/
theorem release_inv (t : TileManager) (x : Nat) (h : PoolInv t) : PoolInv (t.release x) := by
  obtain ⟨hsort, hnd, hmem⟩ := h
  by_cases hc : x ∉ t.available ∧ x < t.max_tiles
  · have hrel : t.release x
        = { t with available := List.insertionSort (· ≤ ·) (t.available ++ [x]) } := by
      rw [TileManager.release, if_pos hc]
    refine ⟨?_, ?_, ?_⟩
    · rw [hrel]
      exact List.sorted_insertionSort (· ≤ ·) (t.available ++ [x])
    · rw [hrel]
      show (List.insertionSort (· ≤ ·) (t.available ++ [x])).Nodup
      refine ((List.perm_insertionSort (· ≤ ·) (t.available ++ [x])).nodup_iff).mpr ?_
      simp [List.nodup_append, hnd, hc.1]
    · intro s hs
      rw [hrel] at hs
      have : s ∈ t.available ++ [x] :=
        (List.perm_insertionSort (· ≤ ·) (t.available ++ [x])).mem_iff.mp hs
      rw [hrel]
      rcases List.mem_append.mp this with h1 | h1
      · exact hmem s h1
      · simp at h1
        rw [h1]
        exact hc.2
  · have hrel : t.release x = t := by rw [TileManager.release, if_neg hc]
    rw [hrel]
    exact ⟨hsort, hnd, hmem⟩

/-- Operations never change `max_tiles`. -/
theorem runOps_max_tiles : ∀ (ops : List TileOp) (t : TileManager),
    (runOps t ops).max_tiles = t.max_tiles := by
  intro ops
  induction ops with
  | nil => intro t; rfl
  | cons op rest ih =>
    intro t
    cases op with
    | acq =>
      rw [runOps, ih]
      obtain ⟨mt, c, r, ww, wh, av⟩ := t
      cases av <;> rfl
    | rel s =>
      rw [runOps, ih]
      by_cases hc : s ∉ t.available ∧ s < t.max_tiles
      · rw [TileManager.release, if_pos hc]
      · rw [TileManager.release, if_neg hc]

/-- Any operation sequence preserves the pool invariant. -/
theorem runOps_inv : ∀ (ops : List TileOp) (t : TileManager),
    PoolInv t → PoolInv (runOps t ops) := by
  intro ops
  induction ops with
  | nil => intro t h; exact h
  | cons op rest ih =>
    intro t h
    cases op with
    | acq => exact ih t.acquire.2 (acquire_inv t h)
    | rel s => exact ih (t.release s) (release_inv t s h)

/-- Releasing a slot already pooled or out of range is a no-op. -/
theorem release_noop (t : TileManager) (s : Nat)
    (h : s ∈ t.available ∨ t.max_tiles ≤ s) : (t.release s).available = t.available := by
  have hc : ¬(s ∉ t.available ∧ s < t.max_tiles) := by
    rcases h with h1 | h1
    · intro hc; exact hc.1 h1
    · intro hc; omega
  rw [TileManager.release, if_neg hc]

/-- C10: after any operation sequence on a fresh pool of size `N`, the
available pool is an ascending, duplicate-free subset of
`{0, ..., N-1}`, and releasing a slot that is already pooled or out of
range (`≥ N`) leaves the pool unchanged. -/
theorem tile_pool_invariant (N cols sw sh : Nat) (ops : List TileOp) :
    (runOps (TileManager.init N cols sw sh) ops).available.Sorted (· ≤ ·) ∧
    (runOps (TileManager.init N cols sw sh) ops).available.Nodup ∧
    (∀ s ∈ (runOps (TileManager.init N cols sw sh) ops).available, s < N) ∧
    (∀ s, s ∈ (runOps (TileManager.init N cols sw sh) ops).available ∨ N ≤ s →
      ((runOps (TileManager.init N cols sw sh) ops).release s).available
        = (runOps (TileManager.init N cols sw sh) ops).available) := by
  have hmt : (runOps (TileManager.init N cols sw sh) ops).max_tiles = N :=
    runOps_max_tiles ops (TileManager.init N cols sw sh)
  have hinv0 : PoolInv (TileManager.init N cols sw sh) := by
    refine ⟨List.sorted_le_range N, List.nodup_range N, ?_⟩
    intro s hs
    exact List.mem_range.mp hs
  obtain ⟨hsort, hnd, hmem⟩ := runOps_inv ops (TileManager.init N cols sw sh) hinv0
  refine ⟨hsort, hnd, ?_, ?_⟩
  · intro s hs
    have := hmem s hs
    rwa [hmt] at this
  · intro s hs
    refine release_noop _ s ?_
    rwa [hmt]

/-- Witness for C10: double-release of the exhaustion fallback slot 0 and
an out-of-range release leave the pool unchanged. -/
theorem tile_pool_invariant_witness :
    ((runOps (TileManager.init 2 4 1920 1080)
        [TileOp.acq, TileOp.acq, TileOp.rel 0, TileOp.rel 0]).release 5).available
      = (runOps (TileManager.init 2 4 1920 1080)
        [TileOp.acq, TileOp.acq, TileOp.rel 0, TileOp.rel 0]).available :=
  (tile_pool_invariant 2 4 1920 1080
    [TileOp.acq, TileOp.acq, TileOp.rel 0, TileOp.rel 0]).2.2.2 5 (Or.inr (by norm_num))

/-- One polling iteration that finds no new item sleeps and moves to the
next round. -/
theorem waitGo_step_none (timeout pI : ℤ) (jitter : Nat → ℚ)
    (fetchAt : Nat → List String) (existing : List String) (fuel n : Nat) (elapsed : ℚ)
    (h1 : elapsed < (timeout : ℚ)) (h2 : firstNew (fetchAt n) existing = none) :
    waitGo timeout pI jitter fetchAt existing (fuel + 1) n elapsed
      = waitGo timeout pI jitter fetchAt existing fuel (n + 1)
          (elapsed + jitteredSleep pI (jitter n)) := by
  simp [waitGo, h1, h2]

/-- One polling iteration that finds a new item returns it with the
updated elapsed time. -/
theorem waitGo_step_some (timeout pI : ℤ) (jitter : Nat → ℚ)
    (fetchAt : Nat → List String) (existing : List String) (fuel n : Nat) (elapsed : ℚ)
    (c : String) (h1 : elapsed < (timeout : ℚ))
    (h2 : firstNew (fetchAt n) existing = some c) :
    waitGo timeout pI jitter fetchAt existing (fuel + 1) n elapsed
      = (some c, elapsed + jitteredSleep pI (jitter n)) := by
  simp [waitGo, h1, h2]

/-- A found item is the first new item of the first round that has one. -/
theorem waitGo_some_first (timeout pI : ℤ) (jitter : Nat → ℚ)
    (fetchAt : Nat → List String) (existing : List String) :
    ∀ fuel n elapsed c e,
      waitGo timeout pI jitter fetchAt existing fuel n elapsed = (some c, e) →
      ∃ d, firstNew (fetchAt (n + d)) existing = some c ∧
        ∀ j, j < d → firstNew (fetchAt (n + j)) existing = none := by
  intro fuel
  induction fuel with
  | zero => intro n elapsed c e h; simp [waitGo] at h
  | succ fuel ih =>
    intro n elapsed c e h
    by_cases h1 : elapsed < (timeout : ℚ)
    · cases h2 : firstNew (fetchAt n) existing with
      | some c2 =>
        rw [waitGo_step_some timeout pI jitter fetchAt existing fuel n elapsed c2 h1 h2] at h
        have hc : c2 = c := by
          have := congrArg Prod.fst h
          simpa using this
        exact ⟨0, by simpa [hc] using h2, by omega⟩
      | none =>
        rw [waitGo_step_none timeout pI jitter fetchAt existing fuel n elapsed h1 h2] at h
        obtain ⟨d, hd1, hd2⟩ := ih (n + 1) _ c e h
        refine ⟨d + 1, ?_, ?_⟩
        · have harith : n + (d + 1) = n + 1 + d := by omega
          rwa [harith]
        · intro j hj
          cases j with
          | zero => simpa using h2
          | succ j =>
            have harith : n + (j + 1) = n + 1 + j := by omega
            rw [harith]
            exact hd2 j (by omega)
    · simp [waitGo, h1] at h

/-- C5: `get_existing` returns exactly the currently fetched matching
items (as a set), and a successful `wait_for_code` returns the first
fetched item not in the `existing` snapshot — first round with a new item,
first such item in that round's order. -/
theorem poller_returns_first_new (fetched : List String) (timeout pI : ℤ)
    (jitter : Nat → ℚ) (fetchAt : Nat → List String) (existing : List String)
    (c : String) (e : ℚ) :
    (∀ x, x ∈ get_existing fetched ↔ x ∈ fetched) ∧
    (wait_for_code timeout pI jitter fetchAt existing = (.ok c, e) →
      c ∉ existing ∧ ∃ n, c ∈ fetchAt n ∧ firstNew (fetchAt n) existing = some c ∧
        ∀ j, j < n → firstNew (fetchAt j) existing = none) ∧
    (wait_for_link timeout pI jitter fetchAt existing = (some c, e) →
      c ∉ existing ∧ ∃ n, c ∈ fetchAt n ∧ firstNew (fetchAt n) existing = some c ∧
        ∀ j, j < n → firstNew (fetchAt j) existing = none) := by
  have hloop : ∀ e2, waitLoop timeout pI jitter fetchAt existing = (some c, e2) →
      c ∉ existing ∧ ∃ n, c ∈ fetchAt n ∧ firstNew (fetchAt n) existing = some c ∧
        ∀ j, j < n → firstNew (fetchAt j) existing = none := by
    intro e2 hwl
    obtain ⟨d, hd1, hd2⟩ := waitGo_some_first timeout pI jitter fetchAt existing
      (timeout.toNat + 1) 0 0 c e2 hwl
    simp only [Nat.zero_add] at hd1 hd2
    have hmem : c ∈ fetchAt d := List.mem_of_find?_eq_some hd1
    have hnotin : c ∉ existing := by
      have := List.find?_some hd1
      simpa using this
    exact ⟨hnotin, d, hmem, hd1, hd2⟩
  refine ⟨?_, ?_, ?_⟩
  · intro x
    simp [get_existing]
  · intro h
    rcases hwl : waitLoop timeout pI jitter fetchAt existing with ⟨o, e2⟩
    cases o with
    | none => simp [wait_for_code, hwl] at h
    | some c2 =>
      rw [wait_for_code, hwl] at h
      have hc : c2 = c := by
        have := congrArg Prod.fst h
        simpa using this
      subst hc
      exact hloop e2 hwl
  · intro h
    exact hloop e h

/-- Witness for C5: mailbox with pre-existing item "A" in the snapshot
and item "B" arriving at round 1; the poller returns "B". -/
theorem poller_returns_first_new_witness :
    (∀ x, x ∈ get_existing ["A"] ↔ x ∈ ["A"]) ∧
    ("B" ∉ ["A"] ∧ ∃ n, "B" ∈ (fun k => if k = 0 then ["A"] else ["A", "B"]) n ∧
      firstNew ((fun k => if k = 0 then ["A"] else ["A", "B"]) n) ["A"] = some "B" ∧
      ∀ j, j < n → firstNew ((fun k => if k = 0 then ["A"] else ["A", "B"]) j) ["A"] = none) ∧
    ("B" ∉ ["A"] ∧ ∃ n, "B" ∈ (fun k => if k = 0 then ["A"] else ["A", "B"]) n ∧
      firstNew ((fun k => if k = 0 then ["A"] else ["A", "B"]) n) ["A"] = some "B" ∧
      ∀ j, j < n → firstNew ((fun k => if k = 0 then ["A"] else ["A", "B"]) j) ["A"] = none) := by
  have hA := waitGo_step_none 2 1 (fun _ => 0)
    (fun k => if k = 0 then ["A"] else ["A", "B"]) ["A"] 2 0 0 (by norm_num) (by decide)
  norm_num [jitteredSleep] at hA
  have hB := waitGo_step_some 2 1 (fun _ => 0)
    (fun k => if k = 0 then ["A"] else ["A", "B"]) ["A"] 1 1 1 "B" (by norm_num) (by decide)
  norm_num [jitteredSleep] at hB
  have hw : waitLoop 2 1 (fun _ => 0)
      (fun k => if k = 0 then ["A"] else ["A", "B"]) ["A"] = (some "B", 2) := by
    have ht : ((2 : ℤ).toNat + 1) = 3 := by decide
    rw [waitLoop, ht]
    exact hA.trans hB
  have hq := poller_returns_first_new ["A"] 2 1 (fun _ => 0)
    (fun k => if k = 0 then ["A"] else ["A", "B"]) ["A"] "B" 2
  refine ⟨hq.1, hq.2.1 ?_, hq.2.2 hw⟩
  rw [wait_for_code, hw]

/-- When no round ever has a new item, the polling loop (given enough
fuel) returns `none`, the final elapsed time is at least `timeout`, and —
when entered below the bound — at most `timeout + poll_interval + 2`. -/
theorem waitGo_expiry (timeout pI : ℤ) (jitter : Nat → ℚ)
    (fetchAt : Nat → List String) (existing : List String)
    (hpi : 0 ≤ pI) (hj : ∀ n, jitter n ≤ 2)
    (hnone : ∀ n, firstNew (fetchAt n) existing = none) :
    ∀ (fuel n : Nat) (elapsed : ℚ), (timeout : ℚ) ≤ elapsed + (fuel : ℚ) →
      (waitGo timeout pI jitter fetchAt existing fuel n elapsed).1 = none ∧
      (timeout : ℚ) ≤ (waitGo timeout pI jitter fetchAt existing fuel n elapsed).2 ∧
      (elapsed ≤ (timeout : ℚ) + pI + 2 →
        (waitGo timeout pI jitter fetchAt existing fuel n elapsed).2
          ≤ (timeout : ℚ) + pI + 2) := by
  intro fuel
  induction fuel with
  | zero =>
    intro n elapsed hf
    push_cast at hf
    exact ⟨rfl, by simpa [waitGo] using hf, fun h => by simpa [waitGo] using h⟩
  | succ fuel ih =>
    intro n elapsed hf
    by_cases h1 : elapsed < (timeout : ℚ)
    · rw [waitGo_step_none timeout pI jitter fetchAt existing fuel n elapsed h1 (hnone n)]
      have hsl : (1 : ℚ) ≤ jitteredSleep pI (jitter n) := le_max_left 1 _
      have hsu : jitteredSleep pI (jitter n) ≤ (pI : ℚ) + 2 := by
        rw [jitteredSleep]
        have h2 : (pI : ℚ) + jitter n ≤ (pI : ℚ) + 2 := by
          have := hj n; linarith
        have h0 : (0 : ℚ) ≤ (pI : ℚ) := by exact_mod_cast hpi
        exact max_le (by linarith) h2
      have hf2 : (timeout : ℚ) ≤ (elapsed + jitteredSleep pI (jitter n)) + fuel := by
        push_cast at hf ⊢
        linarith
      obtain ⟨ha, hb, hc⟩ := ih (n + 1) (elapsed + jitteredSleep pI (jitter n)) hf2
      refine ⟨ha, hb, fun _ => ?_⟩
      apply hc
      linarith
    · have heq : waitGo timeout pI jitter fetchAt existing (fuel + 1) n elapsed
          = (none, elapsed) := by
        simp [waitGo, h1]
      rw [heq]
      exact ⟨rfl, not_lt.mp h1, fun h => h⟩

/-- C6: when no item outside the snapshot ever arrives, `wait_for_code`
raises `TimeoutError` while `wait_for_code_optional` and `wait_for_link`
return `None`, and the cumulative waiting time at termination lies within
`[timeout, timeout + poll_interval + 2]` (2 being the maximum jitter of
one sleep). -/
theorem poller_timeout_bounds (timeout pI : ℤ) (jitter : Nat → ℚ)
    (fetchAt : Nat → List String) (existing : List String)
    (hT : 0 ≤ timeout) (hpi : 0 ≤ pI) (hj : ∀ n, jitter n ≤ 2)
    (hold : ∀ n, ∀ x ∈ fetchAt n, x ∈ existing) :
    (wait_for_code timeout pI jitter fetchAt existing).1 = .error () ∧
    (wait_for_code_optional timeout pI jitter fetchAt existing).1 = none ∧
    (wait_for_link timeout pI jitter fetchAt existing).1 = none ∧
    ((timeout : ℚ) ≤ (wait_for_code_optional timeout pI jitter fetchAt existing).2 ∧
      (wait_for_code_optional timeout pI jitter fetchAt existing).2
        ≤ (timeout : ℚ) + pI + 2) ∧
    (wait_for_code timeout pI jitter fetchAt existing).2
      = (wait_for_code_optional timeout pI jitter fetchAt existing).2 ∧
    (wait_for_link timeout pI jitter fetchAt existing).2
      = (wait_for_code_optional timeout pI jitter fetchAt existing).2 := by
  have hfn : ∀ n, firstNew (fetchAt n) existing = none := by
    intro n
    rw [firstNew, List.find?_eq_none]
    intro x hx
    simpa using hold n x hx
  have h1 : ((timeout.toNat : ℚ)) = (timeout : ℚ) := by
    exact_mod_cast Int.toNat_of_nonneg hT
  obtain ⟨ha, hb, hc⟩ := waitGo_expiry timeout pI jitter fetchAt existing hpi hj hfn
    (timeout.toNat + 1) 0 0 (by push_cast; linarith)
  have h0T : (0 : ℚ) ≤ (timeout : ℚ) := by exact_mod_cast hT
  have h0P : (0 : ℚ) ≤ (pI : ℚ) := by exact_mod_cast hpi
  have hcc := hc (by linarith)
  rcases hwl : waitLoop timeout pI jitter fetchAt existing with ⟨o, e2⟩
  have ho : o = none := by
    have := ha
    rw [waitLoop] at hwl
    rw [hwl] at this
    exact this
  subst ho
  have he2l : (timeout : ℚ) ≤ e2 := by
    have := hb
    rw [waitLoop] at hwl
    rw [hwl] at this
    exact this
  have he2u : e2 ≤ (timeout : ℚ) + pI + 2 := by
    have := hcc
    rw [waitLoop] at hwl
    rw [hwl] at this
    exact this
  refine ⟨?_, ?_, ?_, ⟨?_, ?_⟩, ?_, ?_⟩ <;>
    simp [wait_for_code, wait_for_code_optional, wait_for_link, hwl, he2l, he2u]

/-- Witness for C6: empty mailbox rounds, timeout 1, poll interval 0,
zero jitter. -/
theorem poller_timeout_bounds_witness :
    (wait_for_code 1 0 (fun _ => 0) (fun _ => []) []).1 = .error () ∧
    (wait_for_code_optional 1 0 (fun _ => 0) (fun _ => []) []).1 = none ∧
    (wait_for_link 1 0 (fun _ => 0) (fun _ => []) []).1 = none ∧
    (((1 : ℤ) : ℚ) ≤ (wait_for_code_optional 1 0 (fun _ => 0) (fun _ => []) []).2 ∧
      (wait_for_code_optional 1 0 (fun _ => 0) (fun _ => []) []).2
        ≤ ((1 : ℤ) : ℚ) + (0 : ℤ) + 2) ∧
    (wait_for_code 1 0 (fun _ => 0) (fun _ => []) []).2
      = (wait_for_code_optional 1 0 (fun _ => 0) (fun _ => []) []).2 ∧
    (wait_for_link 1 0 (fun _ => 0) (fun _ => []) []).2
      = (wait_for_code_optional 1 0 (fun _ => 0) (fun _ => []) []).2 :=
  poller_timeout_bounds 1 0 (fun _ => 0) (fun _ => []) []
    (by norm_num) (by norm_num) (fun n => by norm_num)
    (fun n x hx => by simp at hx)

/-- C8: a poll round whose fetch exceeded the per-fetch timeout yields
the empty result list for that round rather than raising, and the waiting
loop continues to its next scheduled iteration. -/
theorem fetch_timeout_empty_round (raw : FetchRaw) (timeout pI : ℤ)
    (jitter : Nat → ℚ) (fetchAt : Nat → List String) (existing : List String)
    (fuel n : Nat) (elapsed : ℚ)
    (hraw : raw = .timedOut) (hfetch : fetchRoundResult raw = .ok (fetchAt n))
    (hlt : elapsed < (timeout : ℚ)) :
    fetchAt n = [] ∧
    waitGo timeout pI jitter fetchAt existing (fuel + 1) n elapsed
      = waitGo timeout pI jitter fetchAt existing fuel (n + 1)
          (elapsed + jitteredSleep pI (jitter n)) := by
  have hempty : fetchAt n = [] := by
    rw [hraw] at hfetch
    have h2 : (Except.ok ([] : List String) : Except String (List String))
        = .ok (fetchAt n) := hfetch
    injection h2 with h3
    exact h3.symm
  refine ⟨hempty, ?_⟩
  exact waitGo_step_none timeout pI jitter fetchAt existing fuel n elapsed hlt
    (by rw [hempty]; rfl)

/-- Witness for C8: timed-out fetch at round 0 with timeout 1. -/
theorem fetch_timeout_empty_round_witness :
    (fun _ : Nat => ([] : List String)) 0 = [] ∧
    waitGo 1 0 (fun _ => 0) (fun _ => []) [] (0 + 1) 0 0
      = waitGo 1 0 (fun _ => 0) (fun _ => []) [] 0 (0 + 1)
          (0 + jitteredSleep 0 ((fun _ => (0 : ℚ)) 0)) :=
  fetch_timeout_empty_round .timedOut 1 0 (fun _ => 0) (fun _ => []) [] 0 0 0
    rfl rfl (by norm_num)

/-- A list is an initial segment of itself followed by anything. -/
theorem isPfx_append_self : ∀ (l t : List Char), isPfx l (l ++ t) = true := by
  intro l
  induction l with
  | nil => intro t; rfl
  | cons c cs ih => intro t; simp [isPfx, ih]

/-- An initial segment is a contiguous segment. -/
theorem hasSub_of_isPfx (n l : List Char) (h : isPfx n l = true) : hasSub n l = true := by
  cases l with
  | nil => simpa [hasSub] using h
  | cons d ds => simp [hasSub, h]

/-- A contiguous segment survives prepending. -/
theorem hasSub_append_left (n : List Char) :
    ∀ (pre t : List Char), hasSub n t = true → hasSub n (pre ++ t) = true := by
  intro pre
  induction pre with
  | nil => intro t h; simpa using h
  | cons c cs ih => intro t h; simp [hasSub, ih t h]

/-- Python's `mid in pre + mid + post` is always true. -/
theorem pyIn_sandwich (pre mid post : String) : pyIn mid (pre ++ mid ++ post) = true := by
  obtain ⟨lp⟩ := pre
  obtain ⟨lm⟩ := mid
  obtain ⟨lq⟩ := post
  show hasSub lm ((lp ++ lm) ++ lq) = true
  rw [List.append_assoc]
  exact hasSub_append_left lm lp (lm ++ lq)
    (hasSub_of_isPfx lm (lm ++ lq) (isPfx_append_self lm lq))

/-- C1 (amended): every failing run of `create_account` returns
`success = False`; an exception escaping the body is caught and converted
into `(False, f"{e} (state: FAILED)")`, whose message embeds the state
name FAILED (the state the machine holds at return); every other failure
message either embeds the state held at return or is one of the four
fixed messages carrying no state name. -/
theorem create_account_failure_shape (env : ToppsEnv) :
    (∀ e, tryBody env = .error e →
      create_account env
        = (.FAILED, false, e ++ " (state: " ++ stateName .FAILED ++ ")") ∧
      pyIn (stateName .FAILED) (create_account env).2.2 = true) ∧
    (∀ st m, create_account env = (st, false, m) →
      pyIn (stateName st) m = true ∨
      m ∈ ["Cloudflare verification failed on homepage",
           "Cloudflare verification failed on login",
           "Verification email not received",
           "Failed to navigate to verification link"]) := by
  constructor
  · intro e he
    have h1 : create_account env
        = (.FAILED, false, e ++ " (state: " ++ stateName .FAILED ++ ")") := by
      simp only [create_account, he]
    refine ⟨h1, ?_⟩
    rw [h1]
    exact pyIn_sandwich (e ++ " (state: ") (stateName .FAILED) ")"
  · intro st m hm
    cases htb : tryBody env with
    | error e =>
      simp only [create_account, htb, Prod.mk.injEq] at hm
      obtain ⟨hst, _, hm2⟩ := hm
      subst hst
      subst hm2
      left
      exact pyIn_sandwich (e ++ " (state: ") (stateName .FAILED) ")"
    | ok r =>
      simp only [create_account, htb] at hm
      subst hm
      simp only [tryBody] at htb
      repeat' split at htb
      all_goals first
        | exact Except.noConfusion htb
        | (simp only [Except.ok.injEq, Prod.mk.injEq] at htb
           obtain ⟨hst, hsucc, hm2⟩ := htb
           first
             | exact Bool.noConfusion hsucc
             | (subst hst
                subst hm2
                first
                  | (left; exact pyIn_sandwich _ _ _)
                  | (right; simp)))

/-- Witness for C1: a run whose very first step raises propagates nothing
and yields the structured FAILED result. -/
theorem create_account_failure_shape_witness :
    create_account
        ⟨some "ConnectionError", fun _ => none, false, fun _ => none, false,
          none, none, none, none, none, none, fun _ => none⟩
      = (.FAILED, false, "ConnectionError" ++ " (state: " ++ stateName .FAILED ++ ")") ∧
    pyIn (stateName .FAILED)
      (create_account
        ⟨some "ConnectionError", fun _ => none, false, fun _ => none, false,
          none, none, none, none, none, none, fun _ => none⟩).2.2 = true :=
  (create_account_failure_shape
    ⟨some "ConnectionError", fun _ => none, false, fun _ => none, false,
      none, none, none, none, none, none, fun _ => none⟩).1 "ConnectionError" rfl

/-- Counterexample to C1 as stated: a run failing at the homepage
Cloudflare check returns `success = False` with a message that embeds no
workflow state name at all (in particular not HOMEPAGE, the last reached
state). -/
theorem create_account_message_counterexample :
    create_account
        ⟨none, fun _ => some "https://www.topps.com/", false, fun _ => none, false,
          none, none, none, none, none, none, fun _ => none⟩
      = (.HOMEPAGE, false, "Cloudflare verification failed on homepage") ∧
    ∀ s : ToppsState,
      pyIn (stateName s) "Cloudflare verification failed on homepage" = false := by
  constructor
  · decide
  · decide

end Autofw
